import Mathlib

/-!
Verification of the lot-based position accounting core of the `invest`
repository (src/business_logic.py and src/price_service.py).

Python floats are modelled as exact rationals, transaction dictionaries as a
`Transaction` structure, and `None`-able fields as `Option`.  The `date`
field of the source is an ISO 8601 date string used only as the sort key of
`list.sort(key=lambda x: x["date"])`; lexicographic order on such strings
is exactly chronological order, so it is modelled by a `Nat` chronological
key, and the stable ascending Python sort by a stable insertion sort below.
-/

/-- Embedding of one transaction dictionary: the fields read by the core
functions (`date`, `symbole`, `montant`, `prix_unitaire`, `quantite`,
`type_operation`).  `type_operation` is `none` when the key is absent,
matching the source's `inv.get("type_operation")`. -/
structure Transaction where
  date : Nat
  symbole : String
  montant : ℚ
  prix_unitaire : ℚ
  quantite : ℚ
  type_operation : Option String := none
deriving Repr, DecidableEq

/-- Case-insensitive symbol comparison, from the source's
`inv["symbole"].upper() == symbole.upper()`. -/
def Transaction.matchesSymbol (t : Transaction) (symbole : String) : Bool :=
  t.symbole.toUpper == symbole.toUpper

/-- The source's sale test `inv.get("type_operation") == "Vente"`. -/
def Transaction.estVente (t : Transaction) : Bool :=
  t.type_operation == some ("Vente")

/-- Embedding of `calculer_quantite_investissement` (business_logic.py lines
52-65).  The Python `raise ValueError` is modelled by `Except.error`. -/
def calculer_quantite_investissement (montant prix_unitaire : ℚ) : Except String ℚ :=
  if prix_unitaire ≤ 0 then Except.error ("Le prix unitaire doit etre superieur a 0")
  else Except.ok (montant / prix_unitaire)

/-- Loop body of `calculer_quantite_disponible` (business_logic.py lines
279-287): sales are subtracted, purchase-like operations added. -/
def quantiteStep (symbole : String) (acc : ℚ) (inv : Transaction) : ℚ :=
  if inv.matchesSymbol symbole then
    if inv.estVente then acc - inv.quantite else acc + inv.quantite
  else acc

/-- Embedding of `calculer_quantite_disponible` (business_logic.py lines
267-289): signed quantity sum over the symbol, clamped at zero. -/
def calculer_quantite_disponible (investissements : List Transaction) (symbole : String) : ℚ :=
  max 0 (investissements.foldl (quantiteStep symbole) 0)

/-- Stable ascending insertion used to model Python's stable
`sort(key=lambda x: x["date"])`: an element moves past `u` only when
`u.date` is strictly smaller, so equal dates keep their original order. -/
def insertByDate (t : Transaction) : List Transaction → List Transaction
  | [] => [t]
  | u :: us => if u.date < t.date then u :: insertByDate t us else t :: u :: us

/-- Stable ascending sort by `date`, the ordering used by both FIFO
functions of the source. -/
def trierParDate : List Transaction → List Transaction
  | [] => []
  | t :: ts => insertByDate t (trierParDate ts)

/-- Embedding of the per-purchase position dictionaries built by
`calculer_positions_restantes_fifo` (business_logic.py lines 368-380). -/
structure Position where
  date : Nat
  type_operation : String
  prix_unitaire : ℚ
  quantite_initiale : ℚ
  quantite_restante : ℚ
  montant_initial : ℚ
  montant_restant : ℚ
deriving Repr, DecidableEq

/-- Building one position from a purchase-like transaction
(business_logic.py lines 369-380). -/
def positionInitiale (purchase : Transaction) : Position :=
  { date := purchase.date
    type_operation := purchase.type_operation.getD ("Achat")
    prix_unitaire := purchase.prix_unitaire
    quantite_initiale := purchase.quantite
    quantite_restante := purchase.quantite
    montant_initial := purchase.montant
    montant_restant := purchase.montant }

/-- Inner loop of the FIFO sale application (business_logic.py lines
386-402): walk the positions front to back, consume
`min(remaining, quantity_to_sell)` from each position with remaining
quantity, recompute its remaining amount, stop once the sale is matched. -/
def appliquerVente : List Position → ℚ → List Position
  | [], _ => []
  | pos :: rest, quantity_to_sell =>
    if quantity_to_sell ≤ 0 then pos :: rest
    else if 0 < pos.quantite_restante then
      { pos with
          quantite_restante :=
            pos.quantite_restante - min pos.quantite_restante quantity_to_sell,
          montant_restant :=
            (pos.quantite_restante - min pos.quantite_restante quantity_to_sell)
              * pos.prix_unitaire }
        :: appliquerVente rest (quantity_to_sell - min pos.quantite_restante quantity_to_sell)
    else pos :: appliquerVente rest quantity_to_sell

/-- Outer loop of business_logic.py lines 383-402: apply each sale, in
chronological order, to the position list. -/
def appliquerVentesFifo (positions : List Position) (sales : List Transaction) : List Position :=
  sales.foldl (fun poss sale => appliquerVente poss sale.quantite) positions

/-- Embedding of `calculer_positions_restantes_fifo` (business_logic.py
lines 344-405). -/
def calculer_positions_restantes_fifo (investissements : List Transaction) (symbole : String) :
    List Position :=
  let symbol_investments := investissements.filter (fun inv => inv.matchesSymbol symbole)
  let sorted_investments := trierParDate symbol_investments
  let purchases := sorted_investments.filter (fun inv => !inv.estVente)
  let sales := sorted_investments.filter (fun inv => inv.estVente)
  let remaining_positions := purchases.map positionInitiale
  let final_positions := appliquerVentesFifo remaining_positions sales
  final_positions.filter (fun pos => decide (0 < pos.quantite_initiale))

/-- Embedding of the record returned by `calculate_realized_pnl`
(price_service.py lines 307-314 and 366-372). -/
structure RealizedPnl where
  pnl_realise_montant : ℚ
  pnl_realise_pourcentage : ℚ
  quantite_vendue_totale : ℚ
  prix_moyen_vente : ℚ
  prix_moyen_achat_vendu : ℚ
deriving Repr, DecidableEq

/-- Inner `while` loop of `calculate_realized_pnl` (price_service.py lines
334-355): match one sale against the purchase queue, returning the
remaining queue, the realized P&L of the matched portions and their cost
basis.  The source mutates a `copy.deepcopy` of the purchase list; the
value-level update `\x7b purchase with quantite := ... \x7d` models the
in-place decrement of the copied head. -/
def associerVenteFifo : List Transaction → ℚ → ℚ → List Transaction × ℚ × ℚ
  | [], _, _ => ([], 0, 0)
  | purchase :: rest, quantity_to_match, sale_price =>
    if quantity_to_match ≤ 0 then (purchase :: rest, 0, 0)
    else if purchase.quantite ≤ quantity_to_match then
      let next := associerVenteFifo rest (quantity_to_match - purchase.quantite) sale_price
      (next.1,
       (purchase.quantite * sale_price - purchase.quantite * purchase.prix_unitaire) + next.2.1,
       purchase.quantite * purchase.prix_unitaire + next.2.2)
    else
      ({ purchase with quantite := purchase.quantite - quantity_to_match } :: rest,
       quantity_to_match * sale_price - quantity_to_match * purchase.prix_unitaire,
       quantity_to_match * purchase.prix_unitaire)

/-- One iteration of the `for sale in sales` loop of `calculate_realized_pnl`
(price_service.py lines 325-355).  State: (remaining purchases, total
realized pnl, total quantity sold, total sale value, total cost basis). -/
def pnlStep (st : List Transaction × ℚ × ℚ × ℚ × ℚ) (sale : Transaction) :
    List Transaction × ℚ × ℚ × ℚ × ℚ :=
  let m := associerVenteFifo st.1 sale.quantite sale.prix_unitaire
  (m.1, st.2.1 + m.2.1, st.2.2.1 + sale.quantite, st.2.2.2.1 + sale.montant, st.2.2.2.2 + m.2.2)

/-- Embedding of `calculate_realized_pnl` (price_service.py lines 284-372). -/
def calculate_realized_pnl (investments : List Transaction) (symbol : String) : RealizedPnl :=
  let symbol_investments := investments.filter (fun inv => inv.matchesSymbol symbol)
  let sorted_investments := trierParDate symbol_investments
  let purchases := sorted_investments.filter (fun inv => !inv.estVente)
  let sales := sorted_investments.filter (fun inv => inv.estVente)
  if sales.isEmpty then
    { pnl_realise_montant := 0, pnl_realise_pourcentage := 0, quantite_vendue_totale := 0,
      prix_moyen_vente := 0, prix_moyen_achat_vendu := 0 }
  else
    let acc := sales.foldl pnlStep (purchases, 0, 0, 0, 0)
    let total_pnl_realized := acc.2.1
    let total_quantity_sold := acc.2.2.1
    let total_sale_value := acc.2.2.2.1
    let total_cost_basis := acc.2.2.2.2
    { pnl_realise_montant := total_pnl_realized
      pnl_realise_pourcentage :=
        if 0 < total_cost_basis then total_pnl_realized / total_cost_basis * 100 else 0
      quantite_vendue_totale := total_quantity_sold
      prix_moyen_vente :=
        if 0 < total_quantity_sold then total_sale_value / total_quantity_sold else 0
      prix_moyen_achat_vendu :=
        if 0 < total_quantity_sold then total_cost_basis / total_quantity_sold else 0 }

/-- Embedding of the enriched dictionaries produced by
`calculate_investment_performance` (price_service.py lines 213-280):
`investment.copy()` keeps every original field (`base`), `update` adds the
performance fields. -/
structure Enriched where
  base : Transaction
  prix_actuel : Option ℚ
  valeur_actuelle : ℚ
  pnl_montant : ℚ
  pnl_pourcentage : ℚ
  prix_recupere : Bool
deriving Repr, DecidableEq

/-- Body of the `for investment in investments` loop of
`calculate_investment_performance` (price_service.py lines 213-280). -/
def enrichInvestment (current_price : Option ℚ) (investment : Transaction) : Enriched :=
  let is_sale := investment.estVente
  match current_price with
  | some cp =>
    if is_sale then
      { base := investment, prix_actuel := some cp, valeur_actuelle := 0,
        pnl_montant := 0, pnl_pourcentage := 0, prix_recupere := true }
    else
      let current_value := investment.quantite * cp
      { base := investment, prix_actuel := some cp, valeur_actuelle := current_value,
        pnl_montant := current_value - investment.montant,
        pnl_pourcentage :=
          (cp - investment.prix_unitaire) / investment.prix_unitaire * 100,
        prix_recupere := true }
  | none =>
    { base := investment, prix_actuel := none,
      valeur_actuelle := if is_sale then 0 else investment.montant,
      pnl_montant := 0, pnl_pourcentage := 0, prix_recupere := false }

/-- The deduplicated symbol list of price_service.py line 206
(`list(set([inv["symbole"] for inv in investments]))`): exactly the symbols
for which `get_current_price` is called, one call per entry. -/
def unique_symbols (investments : List Transaction) : List String :=
  (investments.map (fun inv => inv.symbole)).dedup

/-- The `symbol_prices` dictionary of price_service.py lines 209-211: one
price lookup per entry of `unique_symbols`. -/
def symbol_prices (price_lookup : String → Option ℚ) (investments : List Transaction) :
    List (String × Option ℚ) :=
  (unique_symbols investments).map (fun s => (s, price_lookup s))

/-- Embedding of `calculate_investment_performance` (price_service.py lines
190-282), with the external price service abstracted as `price_lookup`. -/
def calculate_investment_performance (price_lookup : String → Option ℚ)
    (investments : List Transaction) : List Enriched :=
  let prices := symbol_prices price_lookup investments
  investments.map (fun inv => enrichInvestment ((prices.lookup inv.symbole).join) inv)

/-- Embedding of the per-asset-class metrics dictionary of
`calculate_portfolio_summary` (price_service.py lines 389-433). -/
structure AssetMetrics where
  valeur_initiale : ℚ
  valeur_actuelle : ℚ
  pnl_montant : ℚ
  pnl_pourcentage : ℚ
  pnl_realise : ℚ
  pnl_non_realise : ℚ
deriving Repr, DecidableEq

/-- Embedding of the helper `calculate_asset_metrics` (price_service.py
lines 389-433).  The realized P&L reads only original transaction fields,
so the enriched records are projected back to their bases for that call. -/
def calculate_asset_metrics (investments : List Enriched) : AssetMetrics :=
  if investments.isEmpty then
    { valeur_initiale := 0, valeur_actuelle := 0, pnl_montant := 0,
      pnl_pourcentage := 0, pnl_realise := 0, pnl_non_realise := 0 }
  else
    let purchases := investments.filter (fun inv => !inv.base.estVente)
    let initial_value := (purchases.map (fun inv => inv.base.montant)).sum
    let current_value := (purchases.map (fun inv => inv.valeur_actuelle)).sum
    let unrealized_pnl := current_value - initial_value
    let usyms := (investments.map (fun inv => inv.base.symbole)).dedup
    let realized_pnl_total :=
      (usyms.map (fun s =>
        (calculate_realized_pnl (investments.map (fun inv => inv.base)) s).pnl_realise_montant)).sum
    let total_pnl := realized_pnl_total + unrealized_pnl
    let pnl_pct := if 0 < initial_value then total_pnl / initial_value * 100 else 0
    { valeur_initiale := initial_value, valeur_actuelle := current_value,
      pnl_montant := total_pnl, pnl_pourcentage := pnl_pct,
      pnl_realise := realized_pnl_total, pnl_non_realise := unrealized_pnl }

/-- Embedding of the dictionary returned by `calculate_portfolio_summary`
(price_service.py lines 447-458). -/
structure PortfolioSummary where
  crypto : AssetMetrics
  bourse : AssetMetrics
  total : AssetMetrics
deriving Repr, DecidableEq

/-- Embedding of `calculate_portfolio_summary` (price_service.py lines
374-458). -/
def calculate_portfolio_summary (crypto_investments stock_investments : List Enriched) :
    PortfolioSummary :=
  let crypto_metrics := calculate_asset_metrics crypto_investments
  let stock_metrics := calculate_asset_metrics stock_investments
  let total_initial := crypto_metrics.valeur_initiale + stock_metrics.valeur_initiale
  let total_current := crypto_metrics.valeur_actuelle + stock_metrics.valeur_actuelle
  let total_realized := crypto_metrics.pnl_realise + stock_metrics.pnl_realise
  let total_unrealized := crypto_metrics.pnl_non_realise + stock_metrics.pnl_non_realise
  let total_pnl := total_realized + total_unrealized
  let total_pnl_pct := if 0 < total_initial then total_pnl / total_initial * 100 else 0
  { crypto := crypto_metrics, bourse := stock_metrics,
    total :=
      { valeur_initiale := total_initial, valeur_actuelle := total_current,
        pnl_montant := total_pnl, pnl_pourcentage := total_pnl_pct,
        pnl_realise := total_realized, pnl_non_realise := total_unrealized } }

/-! State-threaded variants for the purity claim.  The source functions only
read the input transaction list: the list comprehensions allocate fresh
lists, `.sort()` reorders those fresh lists, the position dictionaries are
freshly allocated, and `calculate_realized_pnl` mutates only a
`copy.deepcopy` of the purchase list.  The variants below thread the input
list as explicit state through the same steps and return it with the
result. -/

/-- State-threaded `calculer_positions_restantes_fifo`: same computation,
with the input list returned as the unchanged final state. -/
def calculer_positions_restantes_fifo_run (etat : List Transaction) (symbole : String) :
    List Transaction × List Position :=
  let symbol_investments := etat.filter (fun inv => inv.matchesSymbol symbole)
  let sorted_investments := trierParDate symbol_investments
  let purchases := sorted_investments.filter (fun inv => !inv.estVente)
  let sales := sorted_investments.filter (fun inv => inv.estVente)
  let remaining_positions := purchases.map positionInitiale
  let final_positions := appliquerVentesFifo remaining_positions sales
  (etat, final_positions.filter (fun pos => decide (0 < pos.quantite_initiale)))

/-- State-threaded `calculate_realized_pnl`: same computation, with the
input list returned as the unchanged final state. -/
def calculate_realized_pnl_run (etat : List Transaction) (symbol : String) :
    List Transaction × RealizedPnl :=
  (etat, calculate_realized_pnl etat symbol)

/-! Specification-side definitions, used to state the claims. -/

/-- Sum of `quantite` over the purchase-like transactions of a symbol. -/
def purchaseSum (invs : List Transaction) (symbole : String) : ℚ :=
  ((invs.filter (fun t => t.matchesSymbol symbole && !t.estVente)).map
    (fun t => t.quantite)).sum

/-- Sum of `quantite` over the Sale transactions of a symbol. -/
def saleSum (invs : List Transaction) (symbole : String) : ℚ :=
  ((invs.filter (fun t => t.matchesSymbol symbole && t.estVente)).map
    (fun t => t.quantite)).sum

/-- Sum of `montant` (gross amount) over the Sale transactions of a symbol. -/
def saleAmountSum (invs : List Transaction) (symbole : String) : ℚ :=
  ((invs.filter (fun t => t.matchesSymbol symbole && t.estVente)).map
    (fun t => t.montant)).sum

/-- Sum of the remaining quantities of a list of positions. -/
def sumRemaining (positions : List Position) : ℚ :=
  (positions.map (fun pos => pos.quantite_restante)).sum

/-- Modelled from the spec, section 4.1: the FIFO-matched portions of a
single sale against the purchase queue.  Each portion is
(matched quantity, sale unit price, lot unit price); also returns the
purchase queue left for later sales.  Matching is truncated when the lots
run out. -/
def specMatchPortions : List Transaction → ℚ → ℚ → List (ℚ × ℚ × ℚ) × List Transaction
  | [], _, _ => ([], [])
  | purchase :: rest, qty, sale_price =>
    if qty ≤ 0 then ([], purchase :: rest)
    else if purchase.quantite ≤ qty then
      let next := specMatchPortions rest (qty - purchase.quantite) sale_price
      ((purchase.quantite, sale_price, purchase.prix_unitaire) :: next.1, next.2)
    else
      ([(qty, sale_price, purchase.prix_unitaire)],
       { purchase with quantite := purchase.quantite - qty } :: rest)

/-- Modelled from the spec, section 4.1: all FIFO-matched portions of a
chronological sale list against a chronological purchase-lot queue. -/
def specPortions : List Transaction → List Transaction → List (ℚ × ℚ × ℚ)
  | _, [] => []
  | lots, sale :: rest =>
    let m := specMatchPortions lots sale.quantite sale.prix_unitaire
    m.1 ++ specPortions m.2 rest

/-- The purchase queue remaining after matching all sales of `specPortions`. -/
def specPortionsRem : List Transaction → List Transaction → List Transaction
  | lots, [] => lots
  | lots, sale :: rest =>
    specPortionsRem (specMatchPortions lots sale.quantite sale.prix_unitaire).2 rest

/-- Realized P&L of a list of matched portions:
sum of matched_quantity * sale_price - matched_quantity * lot_price. -/
def specPortionPnl (portions : List (ℚ × ℚ × ℚ)) : ℚ :=
  (portions.map (fun p => p.1 * p.2.1 - p.1 * p.2.2)).sum

/-- Cost basis of a list of matched portions:
sum of matched_quantity * lot_price. -/
def specPortionCost (portions : List (ℚ × ℚ × ℚ)) : ℚ :=
  (portions.map (fun p => p.1 * p.2.2)).sum

/-! Claim C1: the multi-lot FIFO scenario. -/

/-- The concrete history of the multi-lot FIFO scenario: buy 100@10 (day 1),
50@20 (day 2), 30@30 (day 3), sell 120@25 (day 4), all on one symbol. -/
def exempleMultiLot : List Transaction :=
  [ { date := 1, symbole := "AAA", montant := 1000, prix_unitaire := 10, quantite := 100 },
    { date := 2, symbole := "AAA", montant := 1000, prix_unitaire := 20, quantite := 50 },
    { date := 3, symbole := "AAA", montant := 900, prix_unitaire := 30, quantite := 30 },
    { date := 4, symbole := "AAA", montant := 3000, prix_unitaire := 25, quantite := 120,
      type_operation := some ("Vente") } ]

/-- C1: on the history buy 100@10, buy 50@20, buy 30@30, sell 120@25, the
realized P&L is 1600 and the remaining lots, in chronological order, carry
remaining quantities 0 (day-1 lot fully depleted first), 30 (day-2 lot) and
30 (day-3 lot untouched). -/
theorem C1_multi_lot_fifo :
    (calculate_realized_pnl exempleMultiLot ("AAA")).pnl_realise_montant = 1600
    ∧ ((calculer_positions_restantes_fifo exempleMultiLot ("AAA")).map
        (fun pos => (pos.date, pos.quantite_restante)))
      = [(1, 0), (2, 30), (3, 30)] := by
  constructor
  · norm_num [exempleMultiLot, calculate_realized_pnl, trierParDate, insertByDate,
      Transaction.matchesSymbol, Transaction.estVente, pnlStep, associerVenteFifo,
      List.filter, List.foldl]
  · norm_num [exempleMultiLot, calculer_positions_restantes_fifo, trierParDate, insertByDate,
      Transaction.matchesSymbol, Transaction.estVente, appliquerVentesFifo, appliquerVente,
      positionInitiale, min_def, List.filter, List.foldl]

/-! Claim C5: error behaviour of the quantity derivation. -/

/-- C5 counterexample: the claim states that `calculer_quantite_investissement`
raises a domain error whenever it is passed a non-positive amount; the code
only checks the unit price, so the non-positive amount -5 with the positive
price 2 yields a normal result, not an error. -/
theorem C5_counterexample_negative_amount :
    calculer_quantite_investissement (-5) 2 = Except.ok ((-5 : ℚ) / 2) := by
  unfold calculer_quantite_investissement
  rw [if_neg (by norm_num : ¬ ((2 : ℚ) ≤ 0))]

/-- C5 amended: `calculer_quantite_investissement` raises a domain error
exactly when the unit price is non-positive, and for every positive unit
price it returns amount / unit price, regardless of the sign of the
amount. -/
theorem C5_quantite_investissement_error_iff (montant prix_unitaire : ℚ) :
    (prix_unitaire ≤ 0 →
      calculer_quantite_investissement montant prix_unitaire
        = Except.error ("Le prix unitaire doit etre superieur a 0"))
    ∧ (0 < prix_unitaire →
      calculer_quantite_investissement montant prix_unitaire
        = Except.ok (montant / prix_unitaire)) := by
  constructor
  · intro h
    unfold calculer_quantite_investissement
    rw [if_pos h]
  · intro h
    unfold calculer_quantite_investissement
    rw [if_neg (not_le.mpr h)]

/-- C5 witness: both branches of the amended statement evaluated at concrete
inputs. -/
theorem C5_quantite_investissement_error_iff_witness :
    calculer_quantite_investissement 10 0
      = Except.error ("Le prix unitaire doit etre superieur a 0")
    ∧ calculer_quantite_investissement 10 4 = Except.ok ((10 : ℚ) / 4) :=
  ⟨(C5_quantite_investissement_error_iff 10 0).1 (by norm_num),
   (C5_quantite_investissement_error_iff 10 4).2 (by norm_num)⟩

/-! Claim C9: purity of the two ledger operations. -/

/-- C9: the state-threaded variants of `calculer_positions_restantes_fifo`
and `calculate_realized_pnl` return the input transaction list unchanged,
and running either operation a second time on the returned state yields the
same result as the first run: the operations neither modify their input
nor depend on hidden state. -/
theorem C9_ledger_operations_pure (invs : List Transaction) (symbole : String) :
    calculer_positions_restantes_fifo_run invs symbole
      = (invs, calculer_positions_restantes_fifo invs symbole)
    ∧ calculate_realized_pnl_run invs symbole = (invs, calculate_realized_pnl invs symbole)
    ∧ (calculer_positions_restantes_fifo_run
        (calculer_positions_restantes_fifo_run invs symbole).1 symbole).2
      = (calculer_positions_restantes_fifo_run invs symbole).2
    ∧ (calculate_realized_pnl_run (calculate_realized_pnl_run invs symbole).1 symbole).2
      = (calculate_realized_pnl_run invs symbole).2 :=
  ⟨rfl, rfl, rfl, rfl⟩

/-! Claim C3: characterization of `calculer_quantite_disponible`. -/

/-- The running total of `calculer_quantite_disponible` is the purchase sum
minus the sale sum for the symbol, shifted by the accumulator. -/
theorem foldl_quantiteStep (symbole : String) (l : List Transaction) :
    ∀ a : ℚ, l.foldl (quantiteStep symbole) a
      = a + purchaseSum l symbole - saleSum l symbole := by
  induction l with
  | nil => intro a; simp [purchaseSum, saleSum]
  | cons t ts ih =>
    intro a
    rw [List.foldl_cons, ih]
    unfold quantiteStep
    by_cases hm : t.matchesSymbol symbole = true
    · by_cases hv : t.estVente = true
      · simp [purchaseSum, saleSum, List.filter_cons, hm, hv]
        ring
      · simp [purchaseSum, saleSum, List.filter_cons, hm, hv]
        ring
    · simp [purchaseSum, saleSum, List.filter_cons, hm]

/-- C3: for every transaction list and symbol, `calculer_quantite_disponible`
returns exactly max(0, sum of purchase-like quantities minus sum of Sale
quantities) for the (case-insensitively matched) symbol; an oversold
history therefore reports 0, never a negative quantity, and the function is
total (no exception). -/
theorem C3_available_quantity_clamped (invs : List Transaction) (symbole : String) :
    calculer_quantite_disponible invs symbole
      = max 0 (purchaseSum invs symbole - saleSum invs symbole) := by
  unfold calculer_quantite_disponible
  rw [foldl_quantiteStep, zero_add]

/-! Claims C8 and C6: the price dictionary of `calculate_investment_performance`. -/

/-- The `enrichInvestment` output carries exactly the price that was passed
in, in both the sale and the purchase branch. -/
theorem enrichInvestment_prix_actuel (p : Option ℚ) (inv : Transaction) :
    (enrichInvestment p inv).prix_actuel = p := by
  cases p with
  | none => rfl
  | some cp => cases h : inv.estVente <;> simp [enrichInvestment, h]

/-- Looking a batch symbol up in the `symbol_prices` dictionary returns the
single price resolved for it. -/
theorem lookup_symbol_prices (price_lookup : String → Option ℚ) (invs : List Transaction)
    (s : String) (hs : s ∈ (invs.map (fun inv => inv.symbole)).dedup) :
    (symbol_prices price_lookup invs).lookup s = some (price_lookup s) := by
  unfold symbol_prices unique_symbols
  generalize (invs.map (fun inv => inv.symbole)).dedup = l at hs ⊢
  induction l with
  | nil => cases hs
  | cons x xs ih =>
    rw [List.map_cons]
    by_cases hx : s = x
    · subst hx
      simp [List.lookup]
    · have hmem : s ∈ xs := by
        rcases List.mem_cons.mp hs with h | h
        · exact absurd h hx
        · exact h
      have hbeq : (s == x) = false := beq_eq_false_iff_ne.mpr hx
      simp [List.lookup, hbeq, ih hmem]

/-- C8: the external price lookup is consulted exactly once per distinct
symbol of the batch (the call list `unique_symbols` contains each batch
symbol exactly once and nothing else, without duplicates), and the
resulting enriched list applies, at every index, the single price resolved
for that transaction's symbol. -/
theorem C8_price_lookup_once_per_symbol (price_lookup : String → Option ℚ)
    (invs : List Transaction) (s : String) :
    (unique_symbols invs).count s
        = (if s ∈ invs.map (fun inv => inv.symbole) then 1 else 0)
    ∧ (unique_symbols invs).Nodup
    ∧ (calculate_investment_performance price_lookup invs).map (fun e => e.prix_actuel)
        = invs.map (fun inv => price_lookup inv.symbole) := by
  refine ⟨?_, ?_, ?_⟩
  · unfold unique_symbols
    exact List.count_dedup _ _
  · unfold unique_symbols
    exact List.nodup_dedup _
  · unfold calculate_investment_performance
    rw [List.map_map]
    refine List.map_congr_left ?_
    intro inv hinv
    have hmem : inv.symbole ∈ (invs.map (fun inv => inv.symbole)).dedup :=
      List.mem_dedup.mpr (List.mem_map_of_mem _ hinv)
    simp [Function.comp, enrichInvestment_prix_actuel,
      lookup_symbol_prices price_lookup invs inv.symbole hmem]

/-- C6: in a batch where some transaction's symbol resolves no price, that
transaction — if purchase-like — appears in the output at its own index
with current value equal to its gross amount, zero P&L and the resolved
flag false; the output keeps one entry per input entry (nothing is
discarded and no exception is possible). -/
theorem C6_missing_price_degrades (price_lookup : String → Option ℚ)
    (invs : List Transaction) (i : ℕ) (hi : i < invs.length)
    (hnone : price_lookup invs[i].symbole = none)
    (hbuy : invs[i].estVente = false) :
    (calculate_investment_performance price_lookup invs).length = invs.length
    ∧ ∃ hj : i < (calculate_investment_performance price_lookup invs).length,
        (calculate_investment_performance price_lookup invs)[i].base = invs[i]
        ∧ (calculate_investment_performance price_lookup invs)[i].valeur_actuelle
            = invs[i].montant
        ∧ (calculate_investment_performance price_lookup invs)[i].pnl_montant = 0
        ∧ (calculate_investment_performance price_lookup invs)[i].pnl_pourcentage = 0
        ∧ (calculate_investment_performance price_lookup invs)[i].prix_recupere = false := by
  have hlen : (calculate_investment_performance price_lookup invs).length = invs.length := by
    unfold calculate_investment_performance
    rw [List.length_map]
  refine ⟨hlen, hlen ▸ hi, ?_, ?_, ?_, ?_, ?_⟩ <;>
  · have hmem : invs[i].symbole ∈ (invs.map (fun inv => inv.symbole)).dedup :=
      List.mem_dedup.mpr (List.mem_map_of_mem _ (invs.getElem_mem hi))
    have hj : i < (calculate_investment_performance price_lookup invs).length := hlen ▸ hi
    have hel : (calculate_investment_performance price_lookup invs)[i]
        = enrichInvestment none invs[i] := by
      unfold calculate_investment_performance
      rw [List.getElem_map]
      rw [lookup_symbol_prices price_lookup invs invs[i].symbole hmem, hnone]
      rfl
    rw [hel]
    simp [enrichInvestment, hbuy]

/-- A one-purchase batch whose symbol will resolve no price. -/
def exempleSansPrix : List Transaction :=
  [ { date := 1, symbole := "BBB", montant := 200, prix_unitaire := 100, quantite := 2 } ]

/-- C6 witness: with a lookup that never resolves, the single purchase of
`exempleSansPrix` is kept in the output with its gross amount as current
value, zero P&L and the resolved flag false. -/
theorem C6_missing_price_degrades_witness :
    ((0 < exempleSansPrix.length)
      ∧ (fun _ : String => (none : Option ℚ)) exempleSansPrix[0].symbole = none
      ∧ exempleSansPrix[0].estVente = false)
    ∧ ((calculate_investment_performance (fun _ => none) exempleSansPrix).length
          = exempleSansPrix.length
      ∧ ∃ hj : 0 < (calculate_investment_performance (fun _ => none) exempleSansPrix).length,
          (calculate_investment_performance (fun _ => none) exempleSansPrix)[0].base
              = exempleSansPrix[0]
          ∧ (calculate_investment_performance (fun _ => none) exempleSansPrix)[0].valeur_actuelle
              = exempleSansPrix[0].montant
          ∧ (calculate_investment_performance (fun _ => none) exempleSansPrix)[0].pnl_montant = 0
          ∧ (calculate_investment_performance
              (fun _ => none) exempleSansPrix)[0].pnl_pourcentage = 0
          ∧ (calculate_investment_performance
              (fun _ => none) exempleSansPrix)[0].prix_recupere = false) :=
  ⟨⟨by decide, rfl, rfl⟩,
   C6_missing_price_degrades (fun _ => none) exempleSansPrix 0 (by decide) rfl rfl⟩

/-! Claim C7: portfolio summary zero baseline and cross-asset totals. -/

/-- Each asset-class summary satisfies: total P&L is realized plus
unrealized P&L, in both the empty-class and the non-empty branch. -/
theorem calculate_asset_metrics_pnl_split (l : List Enriched) :
    (calculate_asset_metrics l).pnl_montant
      = (calculate_asset_metrics l).pnl_realise + (calculate_asset_metrics l).pnl_non_realise := by
  unfold calculate_asset_metrics
  by_cases h : l.isEmpty <;> simp [h]

/-- Each asset-class summary satisfies: its percentage is its total P&L
over its initial value (zero when the initial value is not positive). -/
theorem calculate_asset_metrics_pct (l : List Enriched) :
    (calculate_asset_metrics l).pnl_pourcentage
      = if 0 < (calculate_asset_metrics l).valeur_initiale then
          (calculate_asset_metrics l).pnl_montant
            / (calculate_asset_metrics l).valeur_initiale * 100
        else 0 := by
  unfold calculate_asset_metrics
  by_cases h : l.isEmpty <;> simp [h]

/-- C7: an asset class with an empty transaction list yields an all-zero
summary; the cross-asset totals are the pairwise sums of the two per-class
summaries for initial value, current value, realized, unrealized and total
P&L, with the total percentage recomputed from the summed totals; and
combining an empty class with a non-empty class yields cross totals equal,
field by field, to the non-empty class's own summary. -/
theorem C7_portfolio_zero_baseline_and_totals (crypto stock : List Enriched) :
    (calculate_portfolio_summary [] stock).crypto
        = { valeur_initiale := 0, valeur_actuelle := 0, pnl_montant := 0,
            pnl_pourcentage := 0, pnl_realise := 0, pnl_non_realise := 0 }
    ∧ (calculate_portfolio_summary crypto stock).total.valeur_initiale
        = (calculate_portfolio_summary crypto stock).crypto.valeur_initiale
          + (calculate_portfolio_summary crypto stock).bourse.valeur_initiale
    ∧ (calculate_portfolio_summary crypto stock).total.valeur_actuelle
        = (calculate_portfolio_summary crypto stock).crypto.valeur_actuelle
          + (calculate_portfolio_summary crypto stock).bourse.valeur_actuelle
    ∧ (calculate_portfolio_summary crypto stock).total.pnl_realise
        = (calculate_portfolio_summary crypto stock).crypto.pnl_realise
          + (calculate_portfolio_summary crypto stock).bourse.pnl_realise
    ∧ (calculate_portfolio_summary crypto stock).total.pnl_non_realise
        = (calculate_portfolio_summary crypto stock).crypto.pnl_non_realise
          + (calculate_portfolio_summary crypto stock).bourse.pnl_non_realise
    ∧ (calculate_portfolio_summary crypto stock).total.pnl_montant
        = (calculate_portfolio_summary crypto stock).crypto.pnl_montant
          + (calculate_portfolio_summary crypto stock).bourse.pnl_montant
    ∧ (calculate_portfolio_summary crypto stock).total.pnl_pourcentage
        = (if 0 < (calculate_portfolio_summary crypto stock).total.valeur_initiale then
            (calculate_portfolio_summary crypto stock).total.pnl_montant
              / (calculate_portfolio_summary crypto stock).total.valeur_initiale * 100
          else 0)
    ∧ (calculate_portfolio_summary [] stock).total.valeur_initiale
        = (calculate_portfolio_summary [] stock).bourse.valeur_initiale
    ∧ (calculate_portfolio_summary [] stock).total.valeur_actuelle
        = (calculate_portfolio_summary [] stock).bourse.valeur_actuelle
    ∧ (calculate_portfolio_summary [] stock).total.pnl_realise
        = (calculate_portfolio_summary [] stock).bourse.pnl_realise
    ∧ (calculate_portfolio_summary [] stock).total.pnl_non_realise
        = (calculate_portfolio_summary [] stock).bourse.pnl_non_realise
    ∧ (calculate_portfolio_summary [] stock).total.pnl_montant
        = (calculate_portfolio_summary [] stock).bourse.pnl_montant
    ∧ (calculate_portfolio_summary [] stock).total.pnl_pourcentage
        = (calculate_portfolio_summary [] stock).bourse.pnl_pourcentage := by
  have hsplitc := calculate_asset_metrics_pnl_split crypto
  have hsplits := calculate_asset_metrics_pnl_split stock
  have hpcts := calculate_asset_metrics_pct stock
  refine ⟨rfl, rfl, rfl, rfl, rfl, ?_, rfl, ?_, ?_, ?_, ?_, ?_, ?_⟩
  · show (calculate_asset_metrics crypto).pnl_realise + (calculate_asset_metrics stock).pnl_realise
        + ((calculate_asset_metrics crypto).pnl_non_realise
          + (calculate_asset_metrics stock).pnl_non_realise)
      = (calculate_asset_metrics crypto).pnl_montant + (calculate_asset_metrics stock).pnl_montant
    rw [hsplitc, hsplits]
    ring
  · show (0 : ℚ) + (calculate_asset_metrics stock).valeur_initiale
      = (calculate_asset_metrics stock).valeur_initiale
    rw [zero_add]
  · show (0 : ℚ) + (calculate_asset_metrics stock).valeur_actuelle
      = (calculate_asset_metrics stock).valeur_actuelle
    rw [zero_add]
  · show (0 : ℚ) + (calculate_asset_metrics stock).pnl_realise
      = (calculate_asset_metrics stock).pnl_realise
    rw [zero_add]
  · show (0 : ℚ) + (calculate_asset_metrics stock).pnl_non_realise
      = (calculate_asset_metrics stock).pnl_non_realise
    rw [zero_add]
  · show (0 : ℚ) + (calculate_asset_metrics stock).pnl_realise
        + ((0 : ℚ) + (calculate_asset_metrics stock).pnl_non_realise)
      = (calculate_asset_metrics stock).pnl_montant
    rw [zero_add, zero_add, hsplits]
  · show (if 0 < (0 : ℚ) + (calculate_asset_metrics stock).valeur_initiale then
        ((0 : ℚ) + (calculate_asset_metrics stock).pnl_realise
          + ((0 : ℚ) + (calculate_asset_metrics stock).pnl_non_realise))
          / ((0 : ℚ) + (calculate_asset_metrics stock).valeur_initiale) * 100
      else 0)
      = (calculate_asset_metrics stock).pnl_pourcentage
    rw [hpcts]
    simp only [zero_add]
    rw [← hsplits]

/-! Shared infrastructure: the sort is a permutation, and membership in the
sorted filtered lists traces back to the input list. -/

/-- Inserting by date yields a permutation of consing. -/
theorem insertByDate_perm (t : Transaction) (l : List Transaction) :
    List.Perm (insertByDate t l) (t :: l) := by
  induction l with
  | nil => exact List.Perm.refl _
  | cons u us ih =>
    rw [insertByDate]
    by_cases h : u.date < t.date
    · rw [if_pos h]
      exact (ih.cons u).trans (List.Perm.swap t u us)
    · rw [if_neg h]

/-- The date sort permutes its input. -/
theorem trierParDate_perm (l : List Transaction) : List.Perm (trierParDate l) l := by
  induction l with
  | nil => exact List.Perm.refl _
  | cons t ts ih =>
    rw [trierParDate]
    exact (insertByDate_perm t (trierParDate ts)).trans (ih.cons t)

/-- A member of the sorted symbol-filtered list further filtered by `p` is a
member of the input list matching the symbol and satisfying `p`. -/
theorem mem_sorted_filter {p : Transaction → Bool} {invs : List Transaction} {symbole : String}
    {t : Transaction}
    (h : t ∈ (trierParDate (invs.filter (fun inv => inv.matchesSymbol symbole))).filter p) :
    t ∈ invs ∧ t.matchesSymbol symbole = true ∧ p t = true := by
  have h1 := List.mem_filter.mp h
  have h2 := (trierParDate_perm (invs.filter (fun inv => inv.matchesSymbol symbole))).mem_iff.mp h1.1
  have h3 := List.mem_filter.mp h2
  exact ⟨h3.1, h3.2, h1.2⟩

/-- Filtering the symbol-filtered list by `p` is filtering the input by the
conjunction, in the order used by `purchaseSum` and `saleSum`. -/
theorem filter_filter_matches (invs : List Transaction) (symbole : String)
    (p : Transaction → Bool) :
    (invs.filter (fun inv => inv.matchesSymbol symbole)).filter p
      = invs.filter (fun t => t.matchesSymbol symbole && p t) := by
  induction invs with
  | nil => rfl
  | cons t ts ih =>
    by_cases hm : t.matchesSymbol symbole = true
    · by_cases hp : p t = true
      · simp [List.filter_cons, hm, hp, ih]
      · simp [List.filter_cons, hm, hp, ih]
    · simp [List.filter_cons, hm, ih]

/-- Unfolding one sale of the FIFO fold. -/
theorem appliquerVentesFifo_cons (ps : List Position) (s : Transaction)
    (rest : List Transaction) :
    appliquerVentesFifo ps (s :: rest)
      = appliquerVentesFifo (appliquerVente ps s.quantite) rest := rfl

/-! Claim C10: per-lot invariants of the FIFO depletion. -/

/-- Invariant of one position under FIFO depletion: nonnegative remaining
quantity bounded by the initial quantity, nonnegative remaining amount, and
a nonnegative unit price. -/
def PositionOk (p : Position) : Prop :=
  0 ≤ p.quantite_restante ∧ p.quantite_restante ≤ p.quantite_initiale
    ∧ 0 ≤ p.montant_restant ∧ 0 ≤ p.prix_unitaire

/-- One FIFO sale application preserves `PositionOk` for every position:
each position loses at most its remaining quantity. -/
theorem appliquerVente_positionOk :
    ∀ (ps : List Position) (q : ℚ), (∀ p ∈ ps, PositionOk p) →
      ∀ p ∈ appliquerVente ps q, PositionOk p := by
  intro ps
  induction ps with
  | nil => intro q h p hp; cases hp
  | cons pos rest ih =>
    intro q h p hp
    rw [appliquerVente] at hp
    by_cases hq : q ≤ 0
    · rw [if_pos hq] at hp
      exact h p hp
    · rw [if_neg hq] at hp
      by_cases hrem : 0 < pos.quantite_restante
      · rw [if_pos hrem] at hp
        rcases List.mem_cons.mp hp with rfl | hp'
        · obtain ⟨h1, h2, h3, h4⟩ := h pos (List.mem_cons_self _ _)
          have hc0 : 0 ≤ min pos.quantite_restante q :=
            le_min (le_of_lt hrem) (le_of_lt (not_le.mp hq))
          have hcr : min pos.quantite_restante q ≤ pos.quantite_restante := min_le_left _ _
          refine ⟨sub_nonneg.mpr hcr, ?_, ?_, h4⟩
          · exact le_trans (sub_le_self _ hc0) h2
          · exact mul_nonneg (sub_nonneg.mpr hcr) h4
        · exact ih _ (fun x hx => h x (List.mem_cons_of_mem _ hx)) p hp'
      · rw [if_neg hrem] at hp
        rcases List.mem_cons.mp hp with rfl | hp'
        · exact h p (List.mem_cons_self _ _)
        · exact ih _ (fun x hx => h x (List.mem_cons_of_mem _ hx)) p hp'

/-- The whole chronological sale fold preserves `PositionOk`. -/
theorem appliquerVentesFifo_positionOk (sales : List Transaction) :
    ∀ ps, (∀ p ∈ ps, PositionOk p) → ∀ p ∈ appliquerVentesFifo ps sales, PositionOk p := by
  induction sales with
  | nil => intro ps h; exact h
  | cons s rest ih =>
    intro ps h
    rw [appliquerVentesFifo_cons]
    exact ih _ (appliquerVente_positionOk ps s.quantite h)

/-- C10: for every transaction list (oversold histories included, since the
Sale rows are entirely unconstrained) whose purchase-like rows for the
symbol are well formed, every lot returned by
`calculer_positions_restantes_fifo` has a remaining quantity between 0 and
its initial quantity, and a nonnegative remaining amount. -/
theorem C10_remaining_lot_invariants (invs : List Transaction) (symbole : String)
    (hp : ∀ t ∈ invs, t.matchesSymbol symbole = true → t.estVente = false →
        0 < t.quantite ∧ 0 < t.prix_unitaire ∧ 0 ≤ t.montant) :
    ∀ pos ∈ calculer_positions_restantes_fifo invs symbole,
      0 ≤ pos.quantite_restante ∧ pos.quantite_restante ≤ pos.quantite_initiale
        ∧ 0 ≤ pos.montant_restant := by
  intro pos hpos
  unfold calculer_positions_restantes_fifo at hpos
  have hmem := (List.mem_filter.mp hpos).1
  have hinit : ∀ p ∈ ((trierParDate
      (invs.filter (fun inv => inv.matchesSymbol symbole))).filter
        (fun inv => !inv.estVente)).map positionInitiale, PositionOk p := by
    intro p hp'
    rcases List.mem_map.mp hp' with ⟨t, ht, rfl⟩
    obtain ⟨htinvs, htm, htv⟩ := mem_sorted_filter ht
    have hv : t.estVente = false := by simpa using htv
    obtain ⟨h1, h2, h3⟩ := hp t htinvs htm hv
    exact ⟨le_of_lt h1, le_refl _, h3, le_of_lt h2⟩
  have := appliquerVentesFifo_positionOk _ _ hinit pos hmem
  exact ⟨this.1, this.2.1, this.2.2.1⟩

/-- An oversold history for the C10 witness: two units bought, five sold. -/
def exempleSurvente : List Transaction :=
  [ { date := 1, symbole := "CCC", montant := 200, prix_unitaire := 100, quantite := 2 },
    { date := 2, symbole := "CCC", montant := 250, prix_unitaire := 50, quantite := 5,
      type_operation := some ("Vente") } ]

/-- C10 witness: the oversold history keeps its single lot with remaining
quantity clamped at 0, never negative. -/
theorem C10_remaining_lot_invariants_witness :
    (∀ t ∈ exempleSurvente, t.matchesSymbol ("CCC") = true → t.estVente = false →
        0 < t.quantite ∧ 0 < t.prix_unitaire ∧ 0 ≤ t.montant)
    ∧ ∀ pos ∈ calculer_positions_restantes_fifo exempleSurvente ("CCC"),
        0 ≤ pos.quantite_restante ∧ pos.quantite_restante ≤ pos.quantite_initiale
          ∧ 0 ≤ pos.montant_restant := by
  have hhyp : ∀ t ∈ exempleSurvente, t.matchesSymbol ("CCC") = true → t.estVente = false →
      0 < t.quantite ∧ 0 < t.prix_unitaire ∧ 0 ≤ t.montant := by
    intro t ht _ hv
    rcases List.mem_cons.mp ht with rfl | ht'
    · exact ⟨by norm_num, by norm_num, by norm_num⟩
    · rcases List.mem_cons.mp ht' with rfl | ht''
      · simp [Transaction.estVente] at hv
      · cases ht''
  exact ⟨hhyp, C10_remaining_lot_invariants exempleSurvente ("CCC") hhyp⟩

/-! Claim C2: quantity conservation. -/

/-- Remaining-quantity sum of a cons. -/
theorem sumRemaining_cons (p : Position) (ps : List Position) :
    sumRemaining (p :: ps) = p.quantite_restante + sumRemaining ps := by
  simp [sumRemaining]

/-- Remaining-quantity sums are nonnegative when every position is. -/
theorem sumRemaining_nonneg (ps : List Position) (h : ∀ p ∈ ps, 0 ≤ p.quantite_restante) :
    0 ≤ sumRemaining ps := by
  induction ps with
  | nil => simp [sumRemaining]
  | cons p rest ih =>
    rw [sumRemaining_cons]
    have h1 := h p (List.mem_cons_self _ _)
    have h2 := ih (fun x hx => h x (List.mem_cons_of_mem _ hx))
    linarith

/-- A fully coverable sale removes exactly its quantity from the total
remaining quantity, and keeps every remaining quantity nonnegative. -/
theorem appliquerVente_sum :
    ∀ (ps : List Position) (q : ℚ), (∀ p ∈ ps, 0 ≤ p.quantite_restante) → 0 ≤ q →
      q ≤ sumRemaining ps →
      sumRemaining (appliquerVente ps q) = sumRemaining ps - q
        ∧ ∀ p ∈ appliquerVente ps q, 0 ≤ p.quantite_restante := by
  intro ps
  induction ps with
  | nil =>
    intro q h hq hle
    have h0 : q = 0 := le_antisymm (by simpa [sumRemaining] using hle) hq
    subst h0
    exact ⟨by simp [appliquerVente, sumRemaining], by simp [appliquerVente]⟩
  | cons pos rest ih =>
    intro q h hq hle
    rw [appliquerVente]
    by_cases hq0 : q ≤ 0
    · have h0 : q = 0 := le_antisymm hq0 hq
      rw [if_pos hq0]
      subst h0
      exact ⟨by rw [sub_zero], h⟩
    · rw [if_neg hq0]
      have hql : 0 < q := not_le.mp hq0
      have hrest : ∀ p ∈ rest, 0 ≤ p.quantite_restante :=
        fun p hp => h p (List.mem_cons_of_mem _ hp)
      by_cases hrem : 0 < pos.quantite_restante
      · rw [if_pos hrem]
        have hcq : min pos.quantite_restante q ≤ q := min_le_right _ _
        have hq2 : 0 ≤ q - min pos.quantite_restante q := sub_nonneg.mpr hcq
        have hle2 : q - min pos.quantite_restante q ≤ sumRemaining rest := by
          rcases le_total pos.quantite_restante q with hcase | hcase
          · rw [min_eq_left hcase]
            rw [sumRemaining_cons] at hle
            linarith
          · rw [min_eq_right hcase]
            simpa using sumRemaining_nonneg rest hrest
        obtain ⟨ihsum, ihpos⟩ := ih (q - min pos.quantite_restante q) hrest hq2 hle2
        constructor
        · rw [sumRemaining_cons, ihsum, sumRemaining_cons]
          dsimp only
          ring
        · intro p hp
          rcases List.mem_cons.mp hp with rfl | hp'
          · dsimp only
            exact sub_nonneg.mpr (min_le_left _ _)
          · exact ihpos p hp'
      · rw [if_neg hrem]
        have hrem0 : pos.quantite_restante = 0 :=
          le_antisymm (not_lt.mp hrem) (h pos (List.mem_cons_self _ _))
        have hle2 : q ≤ sumRemaining rest := by
          rw [sumRemaining_cons, hrem0, zero_add] at hle
          exact hle
        obtain ⟨ihsum, ihpos⟩ := ih q hrest hq hle2
        constructor
        · rw [sumRemaining_cons, ihsum, sumRemaining_cons, hrem0]
          ring
        · intro p hp
          rcases List.mem_cons.mp hp with rfl | hp'
          · exact h p (List.mem_cons_self _ _)
          · exact ihpos p hp'

/-- A chronological list of fully coverable sales removes exactly its total
quantity from the total remaining quantity. -/
theorem appliquerVentesFifo_sum (sales : List Transaction) :
    ∀ ps, (∀ p ∈ ps, 0 ≤ p.quantite_restante) → (∀ s ∈ sales, 0 ≤ s.quantite) →
      (sales.map (fun s => s.quantite)).sum ≤ sumRemaining ps →
      sumRemaining (appliquerVentesFifo ps sales)
        = sumRemaining ps - (sales.map (fun s => s.quantite)).sum := by
  induction sales with
  | nil =>
    intro ps h hs hle
    simp [appliquerVentesFifo]
  | cons s rest ih =>
    intro ps h hs hle
    rw [appliquerVentesFifo_cons]
    have hs0 : 0 ≤ s.quantite := hs s (List.mem_cons_self _ _)
    have hrestq : ∀ x ∈ rest, 0 ≤ x.quantite := fun x hx => hs x (List.mem_cons_of_mem _ hx)
    have hrsum : 0 ≤ (rest.map (fun s => s.quantite)).sum := by
      apply List.sum_nonneg
      intro x hx
      rcases List.mem_map.mp hx with ⟨t, ht, rfl⟩
      exact hrestq t ht
    have hlecons : s.quantite + (rest.map (fun s => s.quantite)).sum ≤ sumRemaining ps := by
      simpa using hle
    have hle1 : s.quantite ≤ sumRemaining ps := by linarith
    obtain ⟨h1, h2⟩ := appliquerVente_sum ps s.quantite h hs0 hle1
    have hle2 : (rest.map (fun s => s.quantite)).sum
        ≤ sumRemaining (appliquerVente ps s.quantite) := by
      rw [h1]
      linarith
    rw [ih _ h2 hrestq hle2, h1]
    simp
    ring

/-- FIFO depletion never changes the initial quantities of the positions. -/
theorem appliquerVente_map_initiale :
    ∀ (ps : List Position) (q : ℚ),
      (appliquerVente ps q).map (fun p => p.quantite_initiale)
        = ps.map (fun p => p.quantite_initiale) := by
  intro ps
  induction ps with
  | nil => intro q; rfl
  | cons pos rest ih =>
    intro q
    rw [appliquerVente]
    by_cases hq : q ≤ 0
    · rw [if_pos hq]
    · rw [if_neg hq]
      by_cases hrem : 0 < pos.quantite_restante
      · rw [if_pos hrem]
        simp [ih]
      · rw [if_neg hrem]
        simp [ih]

/-- The whole sale fold never changes the initial quantities. -/
theorem appliquerVentesFifo_map_initiale (sales : List Transaction) :
    ∀ ps, (appliquerVentesFifo ps sales).map (fun p => p.quantite_initiale)
      = ps.map (fun p => p.quantite_initiale) := by
  induction sales with
  | nil => intro ps; rfl
  | cons s rest ih =>
    intro ps
    rw [appliquerVentesFifo_cons, ih, appliquerVente_map_initiale]

/-- Sums over the sorted filtered list equal sums over the unsorted
conjunction filter. -/
theorem sum_map_sorted_filter (invs : List Transaction) (symbole : String)
    (p : Transaction → Bool) (f : Transaction → ℚ) :
    (((trierParDate (invs.filter (fun inv => inv.matchesSymbol symbole))).filter p).map f).sum
      = ((invs.filter (fun t => t.matchesSymbol symbole && p t)).map f).sum := by
  have hperm :=
    (trierParDate_perm (invs.filter (fun inv => inv.matchesSymbol symbole))).filter p
  rw [((hperm.map f).sum_eq : _), filter_filter_matches]

/-- C2: for every non-oversold history with well-formed (positive)
quantities on the symbol, the sum of remaining quantities over the lots of
`calculer_positions_restantes_fifo` equals `calculer_quantite_disponible`,
and both equal the purchase-quantity sum minus the sale-quantity sum. -/
theorem C2_quantity_conservation (invs : List Transaction) (symbole : String)
    (hq : ∀ t ∈ invs, t.matchesSymbol symbole = true → 0 < t.quantite)
    (hns : saleSum invs symbole ≤ purchaseSum invs symbole) :
    sumRemaining (calculer_positions_restantes_fifo invs symbole)
        = calculer_quantite_disponible invs symbole
    ∧ calculer_quantite_disponible invs symbole
        = purchaseSum invs symbole - saleSum invs symbole := by
  have hdispo : calculer_quantite_disponible invs symbole
      = purchaseSum invs symbole - saleSum invs symbole := by
    unfold calculer_quantite_disponible
    rw [foldl_quantiteStep, zero_add]
    exact max_eq_right (sub_nonneg.mpr hns)
  have hfifo : sumRemaining (calculer_positions_restantes_fifo invs symbole)
      = purchaseSum invs symbole - saleSum invs symbole := by
    unfold calculer_positions_restantes_fifo
    have hmapinit : (((trierParDate (invs.filter (fun inv => inv.matchesSymbol symbole))).filter
        (fun inv => !inv.estVente)).map positionInitiale).map (fun p => p.quantite_restante)
        = ((trierParDate (invs.filter (fun inv => inv.matchesSymbol symbole))).filter
          (fun inv => !inv.estVente)).map (fun t => t.quantite) := by
      rw [List.map_map]
      rfl
    have h0sum : sumRemaining (((trierParDate
        (invs.filter (fun inv => inv.matchesSymbol symbole))).filter
          (fun inv => !inv.estVente)).map positionInitiale)
        = purchaseSum invs symbole := by
      rw [sumRemaining, hmapinit]
      exact sum_map_sorted_filter invs symbole _ _
    have h0nonneg : ∀ p ∈ ((trierParDate
        (invs.filter (fun inv => inv.matchesSymbol symbole))).filter
          (fun inv => !inv.estVente)).map positionInitiale, 0 ≤ p.quantite_restante := by
      intro p hp
      rcases List.mem_map.mp hp with ⟨t, ht, rfl⟩
      obtain ⟨htinvs, htm, _⟩ := mem_sorted_filter ht
      exact le_of_lt (hq t htinvs htm)
    have hsq : ∀ s ∈ (trierParDate
        (invs.filter (fun inv => inv.matchesSymbol symbole))).filter
          (fun inv => inv.estVente), 0 ≤ s.quantite := by
      intro s hs
      obtain ⟨hsinvs, hsm, _⟩ := mem_sorted_filter hs
      exact le_of_lt (hq s hsinvs hsm)
    have hsalesum : (((trierParDate
        (invs.filter (fun inv => inv.matchesSymbol symbole))).filter
          (fun inv => inv.estVente)).map (fun s => s.quantite)).sum
        = saleSum invs symbole :=
      sum_map_sorted_filter invs symbole _ _
    have hle : (((trierParDate
        (invs.filter (fun inv => inv.matchesSymbol symbole))).filter
          (fun inv => inv.estVente)).map (fun s => s.quantite)).sum
        ≤ sumRemaining (((trierParDate
          (invs.filter (fun inv => inv.matchesSymbol symbole))).filter
            (fun inv => !inv.estVente)).map positionInitiale) := by
      rw [hsalesum, h0sum]
      exact hns
    have hmain := appliquerVentesFifo_sum _ _ h0nonneg hsq hle
    have hkeep : ∀ p ∈ appliquerVentesFifo (((trierParDate
        (invs.filter (fun inv => inv.matchesSymbol symbole))).filter
          (fun inv => !inv.estVente)).map positionInitiale)
        ((trierParDate (invs.filter (fun inv => inv.matchesSymbol symbole))).filter
          (fun inv => inv.estVente)),
        decide (0 < p.quantite_initiale) = true := by
      intro p hp
      have hmem1 : p.quantite_initiale ∈ (appliquerVentesFifo (((trierParDate
          (invs.filter (fun inv => inv.matchesSymbol symbole))).filter
            (fun inv => !inv.estVente)).map positionInitiale)
          ((trierParDate (invs.filter (fun inv => inv.matchesSymbol symbole))).filter
            (fun inv => inv.estVente))).map (fun p => p.quantite_initiale) :=
        List.mem_map_of_mem _ hp
      rw [appliquerVentesFifo_map_initiale, List.map_map] at hmem1
      rcases List.mem_map.mp hmem1 with ⟨t, ht, heq⟩
      obtain ⟨htinvs, htm, _⟩ := mem_sorted_filter ht
      have : (0 : ℚ) < p.quantite_initiale := by
        rw [← heq]
        exact hq t htinvs htm
      exact decide_eq_true this
    rw [List.filter_eq_self.mpr hkeep, hmain, h0sum, hsalesum]
  exact ⟨hfifo.trans hdispo.symm, hdispo⟩

/-- A simple round-trip history for the C2 witness: buy 2 units, sell 1. -/
def exempleConservation : List Transaction :=
  [ { date := 1, symbole := "DDD", montant := 200, prix_unitaire := 100, quantite := 2 },
    { date := 2, symbole := "DDD", montant := 150, prix_unitaire := 150, quantite := 1,
      type_operation := some ("Vente") } ]

/-- C2 witness: on the buy-2-sell-1 history the hypotheses hold and the
conserved quantity is 2 - 1. -/
theorem C2_quantity_conservation_witness :
    ((∀ t ∈ exempleConservation, t.matchesSymbol ("DDD") = true → 0 < t.quantite)
      ∧ saleSum exempleConservation ("DDD") ≤ purchaseSum exempleConservation ("DDD"))
    ∧ (sumRemaining (calculer_positions_restantes_fifo exempleConservation ("DDD"))
        = calculer_quantite_disponible exempleConservation ("DDD")
      ∧ calculer_quantite_disponible exempleConservation ("DDD")
        = purchaseSum exempleConservation ("DDD") - saleSum exempleConservation ("DDD")) := by
  have h1 : ∀ t ∈ exempleConservation, t.matchesSymbol ("DDD") = true → 0 < t.quantite := by
    intro t ht _
    rcases List.mem_cons.mp ht with rfl | ht'
    · norm_num
    · rcases List.mem_cons.mp ht' with rfl | ht''
      · norm_num
      · cases ht''
  have h2 : saleSum exempleConservation ("DDD") ≤ purchaseSum exempleConservation ("DDD") := by
    norm_num [saleSum, purchaseSum, exempleConservation, List.filter_cons,
      Transaction.matchesSymbol, Transaction.estVente]
  exact ⟨⟨h1, h2⟩, C2_quantity_conservation exempleConservation ("DDD") h1 h2⟩

/-! Claim C4: the realized P&L record against the FIFO-matched portions. -/

/-- Portion P&L distributes over append. -/
theorem specPortionPnl_append (l1 l2 : List (ℚ × ℚ × ℚ)) :
    specPortionPnl (l1 ++ l2) = specPortionPnl l1 + specPortionPnl l2 := by
  simp [specPortionPnl]

/-- Portion cost distributes over append. -/
theorem specPortionCost_append (l1 l2 : List (ℚ × ℚ × ℚ)) :
    specPortionCost (l1 ++ l2) = specPortionCost l1 + specPortionCost l2 := by
  simp [specPortionCost]

/-- The source's single-sale FIFO matching loop computes exactly the P&L and
cost basis of the specification's matched portions, and leaves the
specification's remaining purchase queue. -/
theorem associerVenteFifo_spec :
    ∀ (lots : List Transaction) (q sp : ℚ),
      associerVenteFifo lots q sp
        = ((specMatchPortions lots q sp).2,
           specPortionPnl (specMatchPortions lots q sp).1,
           specPortionCost (specMatchPortions lots q sp).1) := by
  intro lots
  induction lots with
  | nil =>
    intro q sp
    simp [associerVenteFifo, specMatchPortions, specPortionPnl, specPortionCost]
  | cons purchase rest ih =>
    intro q sp
    rw [associerVenteFifo, specMatchPortions]
    by_cases hq : q ≤ 0
    · rw [if_pos hq, if_pos hq]
      simp [specPortionPnl, specPortionCost]
    · rw [if_neg hq, if_neg hq]
      by_cases hle : purchase.quantite ≤ q
      · rw [if_pos hle, if_pos hle]
        simp only [ih, specPortionPnl, specPortionCost, List.map_cons, List.sum_cons]
      · rw [if_neg hle, if_neg hle]
        simp [specPortionPnl, specPortionCost]

/-- The source's whole sale fold accumulates: the specification portions'
P&L and cost basis, the nominal sold quantity and the gross sale value. -/
theorem foldl_pnlStep_spec :
    ∀ (sales lots : List Transaction) (p q v c : ℚ),
      sales.foldl pnlStep (lots, p, q, v, c)
        = (specPortionsRem lots sales,
           p + specPortionPnl (specPortions lots sales),
           q + (sales.map (fun s => s.quantite)).sum,
           v + (sales.map (fun s => s.montant)).sum,
           c + specPortionCost (specPortions lots sales)) := by
  intro sales
  induction sales with
  | nil =>
    intro lots p q v c
    simp [specPortions, specPortionsRem, specPortionPnl, specPortionCost]
  | cons s rest ih =>
    intro lots p q v c
    rw [List.foldl_cons]
    have hstep : pnlStep (lots, p, q, v, c) s
        = ((specMatchPortions lots s.quantite s.prix_unitaire).2,
           p + specPortionPnl (specMatchPortions lots s.quantite s.prix_unitaire).1,
           q + s.quantite, v + s.montant,
           c + specPortionCost (specMatchPortions lots s.quantite s.prix_unitaire).1) := by
      simp [pnlStep, associerVenteFifo_spec]
    rw [hstep, ih]
    simp only [specPortions, specPortionsRem, specPortionPnl_append, specPortionCost_append,
      List.map_cons, List.sum_cons, Prod.mk.injEq]
    refine ⟨trivial, by ring, by ring, by ring, by ring⟩

/-- The matched portions of one sale have nonnegative matched quantities and
lot prices whenever the purchase queue does, and the remaining queue keeps
that property. -/
theorem specMatchPortions_nonneg :
    ∀ (lots : List Transaction) (q sp : ℚ),
      (∀ t ∈ lots, 0 ≤ t.quantite ∧ 0 ≤ t.prix_unitaire) →
      (∀ port ∈ (specMatchPortions lots q sp).1, 0 ≤ port.1 ∧ 0 ≤ port.2.2)
        ∧ ∀ t ∈ (specMatchPortions lots q sp).2, 0 ≤ t.quantite ∧ 0 ≤ t.prix_unitaire := by
  intro lots
  induction lots with
  | nil =>
    intro q sp h
    constructor
    · intro port hp
      simp [specMatchPortions] at hp
    · intro t ht
      simp [specMatchPortions] at ht
  | cons purchase rest ih =>
    intro q sp h
    rw [specMatchPortions]
    have hhead := h purchase (List.mem_cons_self _ _)
    have hrest : ∀ t ∈ rest, 0 ≤ t.quantite ∧ 0 ≤ t.prix_unitaire :=
      fun t ht => h t (List.mem_cons_of_mem _ ht)
    by_cases hq : q ≤ 0
    · rw [if_pos hq]
      constructor
      · intro port hp
        simp at hp
      · exact h
    · rw [if_neg hq]
      by_cases hle : purchase.quantite ≤ q
      · rw [if_pos hle]
        obtain ⟨ih1, ih2⟩ := ih (q - purchase.quantite) sp hrest
        constructor
        · intro port hp
          simp only [List.mem_cons] at hp
          rcases hp with rfl | hp'
          · exact ⟨hhead.1, hhead.2⟩
          · exact ih1 port hp'
        · exact ih2
      · rw [if_neg hle]
        constructor
        · intro port hp
          simp only [List.mem_singleton] at hp
          subst hp
          exact ⟨le_of_lt (not_le.mp hq), hhead.2⟩
        · intro t ht
          simp only [List.mem_cons] at ht
          rcases ht with rfl | ht'
          · exact ⟨sub_nonneg.mpr (le_of_lt (not_le.mp hle)), hhead.2⟩
          · exact hrest t ht'

/-- All FIFO-matched portions of a sale list have nonnegative matched
quantities and lot prices whenever the purchase queue does. -/
theorem specPortions_nonneg :
    ∀ (sales lots : List Transaction),
      (∀ t ∈ lots, 0 ≤ t.quantite ∧ 0 ≤ t.prix_unitaire) →
      ∀ port ∈ specPortions lots sales, 0 ≤ port.1 ∧ 0 ≤ port.2.2 := by
  intro sales
  induction sales with
  | nil =>
    intro lots h port hp
    simp [specPortions] at hp
  | cons s rest ih =>
    intro lots h port hp
    simp only [specPortions] at hp
    obtain ⟨h1, h2⟩ := specMatchPortions_nonneg lots s.quantite s.prix_unitaire h
    rcases List.mem_append.mp hp with hl | hr
    · exact h1 port hl
    · exact ih _ h2 port hr

/-- The chronological purchase queue of a symbol, sorted and partitioned
exactly as by the source FIFO functions. -/
def sortedPurchases (invs : List Transaction) (symbole : String) : List Transaction :=
  (trierParDate (invs.filter (fun inv => inv.matchesSymbol symbole))).filter
    (fun inv => !inv.estVente)

/-- The chronological sale list of a symbol, sorted and partitioned exactly
as by the source FIFO functions. -/
def sortedSales (invs : List Transaction) (symbole : String) : List Transaction :=
  (trierParDate (invs.filter (fun inv => inv.matchesSymbol symbole))).filter
    (fun inv => inv.estVente)

/-- C4: for well-formed histories, the realized P&L record satisfies: with
no Sale transaction for the symbol every field is 0 (and no error is
possible); otherwise the realized P&L is the sum over the FIFO-matched
portions (truncated when lots run out) of matched quantity times price
difference, the total quantity sold is the nominal Sale-quantity sum (not
reduced by unmatched excess), the average sale price is the gross sale
amount sum over it, the average cost basis price is the matched cost basis
over it, and the percentage is realized P&L over cost basis times 100, or 0
when the cost basis is zero. -/
theorem C4_realized_pnl_record (invs : List Transaction) (symbole : String)
    (hpur : ∀ t ∈ invs, t.matchesSymbol symbole = true → t.estVente = false →
        0 ≤ t.quantite ∧ 0 ≤ t.prix_unitaire)
    (hsale : ∀ t ∈ invs, t.matchesSymbol symbole = true → t.estVente = true →
        0 < t.quantite) :
    (invs.filter (fun t => t.matchesSymbol symbole && t.estVente) = [] →
      calculate_realized_pnl invs symbole
        = { pnl_realise_montant := 0, pnl_realise_pourcentage := 0,
            quantite_vendue_totale := 0, prix_moyen_vente := 0,
            prix_moyen_achat_vendu := 0 })
    ∧ (invs.filter (fun t => t.matchesSymbol symbole && t.estVente) ≠ [] →
        (calculate_realized_pnl invs symbole).pnl_realise_montant
            = specPortionPnl (specPortions (sortedPurchases invs symbole)
                (sortedSales invs symbole))
        ∧ (calculate_realized_pnl invs symbole).quantite_vendue_totale
            = saleSum invs symbole
        ∧ (calculate_realized_pnl invs symbole).prix_moyen_vente
            = saleAmountSum invs symbole / saleSum invs symbole
        ∧ (calculate_realized_pnl invs symbole).prix_moyen_achat_vendu
            = specPortionCost (specPortions (sortedPurchases invs symbole)
                (sortedSales invs symbole)) / saleSum invs symbole
        ∧ (calculate_realized_pnl invs symbole).pnl_realise_pourcentage
            = (if specPortionCost (specPortions (sortedPurchases invs symbole)
                  (sortedSales invs symbole)) = 0 then 0
               else (calculate_realized_pnl invs symbole).pnl_realise_montant
                  / specPortionCost (specPortions (sortedPurchases invs symbole)
                      (sortedSales invs symbole)) * 100)) := by
  have hperm : List.Perm (sortedSales invs symbole)
      (invs.filter (fun t => t.matchesSymbol symbole && t.estVente)) := by
    have h :=
      (trierParDate_perm (invs.filter (fun inv => inv.matchesSymbol symbole))).filter
        (fun inv => inv.estVente)
    rw [filter_filter_matches] at h
    exact h
  have e1 : (trierParDate (invs.filter (fun inv => inv.matchesSymbol symbole))).filter
      (fun inv => inv.estVente) = sortedSales invs symbole := rfl
  have e2 : (trierParDate (invs.filter (fun inv => inv.matchesSymbol symbole))).filter
      (fun inv => !inv.estVente) = sortedPurchases invs symbole := rfl
  constructor
  · intro hnil
    have hS : sortedSales invs symbole = [] := List.Perm.eq_nil (hnil ▸ hperm)
    simp only [calculate_realized_pnl]
    rw [e1, hS]
    rfl
  · intro hne
    have hSne : sortedSales invs symbole ≠ [] := by
      intro h0
      exact hne (List.Perm.eq_nil (h0 ▸ hperm).symm)
    have hempty : ¬((sortedSales invs symbole).isEmpty = true) := by
      cases h : sortedSales invs symbole with
      | nil => exact absurd h hSne
      | cons a l => simp
    have hrec : calculate_realized_pnl invs symbole
        = { pnl_realise_montant := specPortionPnl (specPortions (sortedPurchases invs symbole)
              (sortedSales invs symbole)),
            pnl_realise_pourcentage :=
              if 0 < specPortionCost (specPortions (sortedPurchases invs symbole)
                  (sortedSales invs symbole)) then
                specPortionPnl (specPortions (sortedPurchases invs symbole)
                    (sortedSales invs symbole))
                  / specPortionCost (specPortions (sortedPurchases invs symbole)
                      (sortedSales invs symbole)) * 100
              else 0,
            quantite_vendue_totale :=
              ((sortedSales invs symbole).map (fun s => s.quantite)).sum,
            prix_moyen_vente :=
              if 0 < ((sortedSales invs symbole).map (fun s => s.quantite)).sum then
                ((sortedSales invs symbole).map (fun s => s.montant)).sum
                  / ((sortedSales invs symbole).map (fun s => s.quantite)).sum
              else 0,
            prix_moyen_achat_vendu :=
              if 0 < ((sortedSales invs symbole).map (fun s => s.quantite)).sum then
                specPortionCost (specPortions (sortedPurchases invs symbole)
                    (sortedSales invs symbole))
                  / ((sortedSales invs symbole).map (fun s => s.quantite)).sum
              else 0 } := by
      simp only [calculate_realized_pnl]
      rw [e1, e2, if_neg hempty, foldl_pnlStep_spec]
      simp [zero_add]
    have hqty : ((sortedSales invs symbole).map (fun s => s.quantite)).sum
        = saleSum invs symbole := by
      rw [saleSum.eq_def]
      exact sum_map_sorted_filter invs symbole _ _
    have hamount : ((sortedSales invs symbole).map (fun s => s.montant)).sum
        = saleAmountSum invs symbole := by
      rw [saleAmountSum.eq_def]
      exact sum_map_sorted_filter invs symbole _ _
    have hqpos : 0 < ((sortedSales invs symbole).map (fun s => s.quantite)).sum := by
      apply List.sum_pos
      · intro x hx
        rcases List.mem_map.mp hx with ⟨t, ht, rfl⟩
        obtain ⟨htinvs, htm, htv⟩ := mem_sorted_filter ht
        exact hsale t htinvs htm htv
      · intro h0
        exact hSne (List.map_eq_nil_iff.mp h0)
    have hlots : ∀ t ∈ sortedPurchases invs symbole,
        0 ≤ t.quantite ∧ 0 ≤ t.prix_unitaire := by
      intro t ht
      obtain ⟨htinvs, htm, htv⟩ := mem_sorted_filter ht
      have hv : t.estVente = false := by simpa using htv
      exact hpur t htinvs htm hv
    have hports := specPortions_nonneg (sortedSales invs symbole)
      (sortedPurchases invs symbole) hlots
    have hcost0 : 0 ≤ specPortionCost (specPortions (sortedPurchases invs symbole)
        (sortedSales invs symbole)) := by
      rw [specPortionCost.eq_def]
      apply List.sum_nonneg
      intro x hx
      rcases List.mem_map.mp hx with ⟨port, hport, rfl⟩
      exact mul_nonneg (hports port hport).1 (hports port hport).2
    refine ⟨?_, ?_, ?_, ?_, ?_⟩
    · rw [hrec]
    · rw [hrec]
      exact hqty
    · rw [hrec]
      dsimp only
      rw [if_pos hqpos, hqty, hamount]
    · rw [hrec]
      dsimp only
      rw [if_pos hqpos, hqty]
    · rw [hrec]
      dsimp only
      rcases eq_or_lt_of_le hcost0 with h0 | hpos
      · rw [← h0]
        simp
      · rw [if_pos hpos, if_neg (ne_of_gt hpos)]

/-- A one-lot one-sale history for the C4 witness: buy 10 units at 5, then
sell 4 units at 8. -/
def exempleVenteSimple : List Transaction :=
  [ { date := 1, symbole := "EEE", montant := 50, prix_unitaire := 5, quantite := 10 },
    { date := 2, symbole := "EEE", montant := 32, prix_unitaire := 8, quantite := 4,
      type_operation := some ("Vente") } ]

/-- C4 witness: the realized P&L record of the buy-10-sell-4 history
satisfies the portion-based characterization. -/
theorem C4_realized_pnl_record_witness :
    ((∀ t ∈ exempleVenteSimple, t.matchesSymbol ("EEE") = true → t.estVente = false →
        0 ≤ t.quantite ∧ 0 ≤ t.prix_unitaire)
      ∧ (∀ t ∈ exempleVenteSimple, t.matchesSymbol ("EEE") = true → t.estVente = true →
        0 < t.quantite))
    ∧ ((exempleVenteSimple.filter (fun t => t.matchesSymbol ("EEE") && t.estVente) = [] →
        calculate_realized_pnl exempleVenteSimple ("EEE")
          = { pnl_realise_montant := 0, pnl_realise_pourcentage := 0,
              quantite_vendue_totale := 0, prix_moyen_vente := 0,
              prix_moyen_achat_vendu := 0 })
      ∧ (exempleVenteSimple.filter (fun t => t.matchesSymbol ("EEE") && t.estVente) ≠ [] →
          (calculate_realized_pnl exempleVenteSimple ("EEE")).pnl_realise_montant
              = specPortionPnl (specPortions (sortedPurchases exempleVenteSimple ("EEE"))
                  (sortedSales exempleVenteSimple ("EEE")))
          ∧ (calculate_realized_pnl exempleVenteSimple ("EEE")).quantite_vendue_totale
              = saleSum exempleVenteSimple ("EEE")
          ∧ (calculate_realized_pnl exempleVenteSimple ("EEE")).prix_moyen_vente
              = saleAmountSum exempleVenteSimple ("EEE") / saleSum exempleVenteSimple ("EEE")
          ∧ (calculate_realized_pnl exempleVenteSimple ("EEE")).prix_moyen_achat_vendu
              = specPortionCost (specPortions (sortedPurchases exempleVenteSimple ("EEE"))
                  (sortedSales exempleVenteSimple ("EEE")))
                / saleSum exempleVenteSimple ("EEE")
          ∧ (calculate_realized_pnl exempleVenteSimple ("EEE")).pnl_realise_pourcentage
              = (if specPortionCost (specPortions (sortedPurchases exempleVenteSimple ("EEE"))
                    (sortedSales exempleVenteSimple ("EEE"))) = 0 then 0
                 else (calculate_realized_pnl exempleVenteSimple ("EEE")).pnl_realise_montant
                    / specPortionCost (specPortions
                        (sortedPurchases exempleVenteSimple ("EEE"))
                        (sortedSales exempleVenteSimple ("EEE"))) * 100))) := by
  have h1 : ∀ t ∈ exempleVenteSimple, t.matchesSymbol ("EEE") = true → t.estVente = false →
      0 ≤ t.quantite ∧ 0 ≤ t.prix_unitaire := by
    intro t ht _ hv
    rcases List.mem_cons.mp ht with rfl | ht'
    · exact ⟨by norm_num, by norm_num⟩
    · rcases List.mem_cons.mp ht' with rfl | ht''
      · simp [Transaction.estVente] at hv
      · cases ht''
  have h2 : ∀ t ∈ exempleVenteSimple, t.matchesSymbol ("EEE") = true → t.estVente = true →
      0 < t.quantite := by
    intro t ht _ hv
    rcases List.mem_cons.mp ht with rfl | ht'
    · simp [Transaction.estVente] at hv
    · rcases List.mem_cons.mp ht' with rfl | ht''
      · norm_num
      · cases ht''
  exact ⟨⟨h1, h2⟩, C4_realized_pnl_record exempleVenteSimple ("EEE") h1 h2⟩
